import Mathlib

/-!
Formal model of the clinic-assistant chat client: the Gemini service layer
(crisis detection, example-question generation), the application state
machine (provisioning, patient binding, chat, teardown), and the
Markdown-to-markup renderer.  Remote calls are modelled as oracle
parameters supplying each call's outcome; JavaScript string operations
(toLowerCase, includes, split, trim, the specific regexes of the renderer)
are embedded as executable functions over lists of characters.
-/

set_option maxRecDepth 10000

/-- JS whitespace test, modelling the regex class backslash-s (restricted to
the ASCII whitespace that `Char.isWhitespace` covers). -/
def isWs (c : Char) : Bool := c.isWhitespace

/-- JS `String.prototype.toLowerCase`, modelled as the ASCII character-wise
lowering `Char.toLower` (the inputs the program lowers are ASCII or Chinese,
on which the two agree). -/
def jsToLower (s : String) : String := String.mk (s.data.map Char.toLower)

/-- `strHead pat l` holds when the character list `pat` starts the list `l`. -/
def strHead : List Char → List Char → Bool
  | [], _ => true
  | _ :: _, [] => false
  | p :: ps, c :: cs => p == c && strHead ps cs

/-- `strFind pat l` holds when `pat` occurs contiguously somewhere in `l`. -/
def strFind (pat : List Char) : List Char → Bool
  | [] => strHead pat []
  | c :: cs => strHead pat (c :: cs) || strFind pat cs

/-- JS `s.includes(pat)` on strings. -/
def jsIncludes (s pat : String) : Bool := strFind pat.data s.data

/-- A retrieved grounding chunk (`chunk.retrievedContext?.text`). -/
structure GroundingChunk where
  retrievedText : Option String
deriving DecidableEq

/-- Result type of `fileSearch` (`QueryResult` in `types.ts`). -/
structure QueryResult where
  text : String
  groundingChunks : List GroundingChunk
  isCrisis : Bool
deriving DecidableEq

/-- The relevant part of a `GenerateContentResponse`: the answer text and the
optional grounding-chunk list (`response.candidates?[0]?.groundingMetadata?.
groundingChunks`). -/
structure GenResponse where
  text : String
  groundingChunks : Option (List GroundingChunk)
deriving DecidableEq

/-- The fixed multilingual crisis keyword list of `geminiService.ts`. -/
def CRISIS_KEYWORDS : List String :=
  ["想死", "自殺", "suicide", "hurt myself", "絕望", "不想活", "結束生命", "痛苦", "找不到出口"]

/-- The crisis test of `fileSearch`: lower-case the query and test whether any
keyword occurs as a substring. -/
def containsCrisisKeyword (query : String) : Bool :=
  CRISIS_KEYWORDS.any (fun k => jsIncludes (jsToLower query) k)

/-- `fileSearch` from `geminiService.ts`.  `aiSet` models whether
`initialize()` has run; `gen` is the remote `generateContent` gateway, given
as an oracle.  The second component records whether the remote gateway was
invoked for this query. -/
def fileSearch (aiSet : Bool) (gen : String → GenResponse) (query : String) :
    Except String QueryResult × Bool :=
  if aiSet = false then (Except.error "Gemini AI not initialized", false)
  else if containsCrisisKeyword query then
    (Except.ok { text := "CRISIS_DETECTED", groundingChunks := [], isCrisis := true }, false)
  else
    let r := gen query
    (Except.ok { text := r.text, groundingChunks := r.groundingChunks.getD [],
                 isCrisis := false }, true)

/-- C1: if the lowercased query contains a crisis keyword, `fileSearch`
returns the fixed crisis result (`text = "CRISIS_DETECTED"`, no source
chunks, `isCrisis = true`) and never invokes the remote answering gateway,
whatever that gateway would answer. -/
theorem fileSearch_crisis_short_circuit (query : String)
    (hc : containsCrisisKeyword query = true) (gen : String → GenResponse) :
    fileSearch true gen query =
      (Except.ok { text := "CRISIS_DETECTED", groundingChunks := [], isCrisis := true }, false) := by
  simp [fileSearch, hc]

/-- Witness for C1 at the spec's concrete scenario query. -/
theorem fileSearch_crisis_short_circuit_witness :
    containsCrisisKeyword "我想自殺" = true ∧
      fileSearch true (fun _ => { text := "any", groundingChunks := none }) "我想自殺" =
        (Except.ok { text := "CRISIS_DETECTED", groundingChunks := [], isCrisis := true }, false) :=
  ⟨by decide, fileSearch_crisis_short_circuit "我想自殺" (by decide) _⟩

/-! Markdown renderer (`renderMarkdown` in `ChatInterface.tsx`).  All string
processing is done over `List Char`; `String`s appear only at the boundary. -/

/-- The backtick character (code point 96). -/
def btChar : Char := Char.ofNat 96

/-- JS `text.split('\n')`: split a character list at newline characters,
keeping empty segments. -/
def splitNl : List Char → List (List Char)
  | [] => [[]]
  | c :: cs =>
    if c = '\n' then [] :: splitNl cs
    else
      match splitNl cs with
      | [] => [[c]]
      | g :: gs => (c :: g) :: gs

/-- Lazy single-character delimiter search: the (possibly empty) body before
the first `d` in the list, and the remainder after that `d`. -/
def splitOnChar (d : Char) : List Char → Option (List Char × List Char)
  | [] => none
  | c :: cs =>
    if c = d then some ([], cs)
    else
      match splitOnChar d cs with
      | some (b, a) => some (c :: b, a)
      | none => none

/-- Lazy double-character delimiter search: the (possibly empty) body before
the first occurrence of `d` twice in a row, and the remainder after it. -/
def splitOnPair (d : Char) : List Char → Option (List Char × List Char)
  | [] => none
  | [_] => none
  | c :: c2 :: cs =>
    if c = d ∧ c2 = d then some ([], cs)
    else
      match splitOnPair d (c2 :: cs) with
      | some (b, a) => some (c :: b, a)
      | none => none

/-- The inline-code body search: a nonempty run of non-backtick characters
followed by a closing backtick (the regex body `[^`]+` between backticks). -/
def splitOnCode : List Char → Option (List Char × List Char)
  | [] => none
  | c :: cs =>
    if c = btChar then none
    else
      match cs with
      | c2 :: a =>
        if c2 = btChar then some ([c], a)
        else
          match splitOnCode cs with
          | some (b, a2) => some (c :: b, a2)
          | none => none
      | [] => none

theorem splitOnChar_length {d : Char} : ∀ {l b a : List Char},
    splitOnChar d l = some (b, a) → a.length < l.length := by
  intro l
  induction l with
  | nil => intro b a h; simp [splitOnChar] at h
  | cons c cs ih =>
    intro b a h
    by_cases hc : c = d
    · simp [splitOnChar, hc] at h
      simp [← h.2]
    · simp only [splitOnChar, if_neg hc] at h
      cases hrec : splitOnChar d cs with
      | none => rw [hrec] at h; simp at h
      | some p =>
        rw [hrec] at h
        obtain ⟨b2, a2⟩ := p
        simp at h
        have := ih hrec
        simp [← h.2]
        omega

theorem splitOnPair_length {d : Char} : ∀ {l b a : List Char},
    splitOnPair d l = some (b, a) → a.length < l.length := by
  intro l
  induction l with
  | nil => intro b a h; simp [splitOnPair] at h
  | cons c cs ih =>
    intro b a h
    cases cs with
    | nil => simp [splitOnPair] at h
    | cons c2 cs2 =>
      by_cases hc : c = d ∧ c2 = d
      · simp [splitOnPair, hc] at h
        simp [← h.2]
        omega
      · simp only [splitOnPair, if_neg hc] at h
        cases hrec : splitOnPair d (c2 :: cs2) with
        | none => rw [hrec] at h; simp at h
        | some p =>
          rw [hrec] at h
          obtain ⟨b2, a2⟩ := p
          simp at h
          have := ih hrec
          simp [← h.2]
          have h2 : a2.length < cs2.length + 1 := this
          omega

theorem splitOnCode_length : ∀ {l b a : List Char},
    splitOnCode l = some (b, a) → a.length < l.length := by
  intro l
  induction l with
  | nil => intro b a h; simp [splitOnCode] at h
  | cons c cs ih =>
    intro b a h
    by_cases hc : c = btChar
    · simp [splitOnCode, hc] at h
    · simp only [splitOnCode, if_neg hc] at h
      cases cs with
      | nil => simp at h
      | cons c2 cs2 =>
        by_cases hc2 : c2 = btChar
        · simp [hc2] at h
          simp [← h.2]
          omega
        · simp only [if_neg hc2] at h
          cases hrec : splitOnCode (c2 :: cs2) with
          | none => rw [hrec] at h; simp at h
          | some p =>
            rw [hrec] at h
            obtain ⟨b2, a2⟩ := p
            simp at h
            have := ih hrec
            simp [← h.2]
            have h2 : a2.length < cs2.length + 1 := by simpa using this
            omega

/-- Opening tag of the strong replacement. -/
def strongOpenL : List Char := "<strong>".data

/-- Closing tag of the strong replacement. -/
def strongCloseL : List Char := "</strong>".data

/-- Opening tag of the emphasis replacement. -/
def emOpenL : List Char := "<em>".data

/-- Closing tag of the emphasis replacement. -/
def emCloseL : List Char := "</em>".data

/-- Opening tag of the inline-code replacement. -/
def codeOpenL : List Char :=
  "<code class=\"bg-gem-mist/50 px-1 py-0.5 rounded-sm font-mono text-sm\">".data

/-- Closing tag of the inline-code replacement. -/
def codeCloseL : List Char := "</code>".data

/-- First inline replace of the renderer: the global regex turning
double-star or double-underscore spans (lazy bodies) into strong elements;
an opener with no closer is left literally and scanning resumes one
character later, as the JS engine does. -/
def strongPass (l : List Char) : List Char :=
  match l with
  | [] => []
  | c :: cs =>
    if (c = '*' ∨ c = '_') ∧ cs.head? = some c then
      match h : splitOnPair c cs.tail with
      | some (b, a) => strongOpenL ++ b ++ strongCloseL ++ strongPass a
      | none => c :: strongPass cs
    else c :: strongPass cs
termination_by l.length
decreasing_by
  · have hlen := splitOnPair_length h
    have : cs.tail.length ≤ cs.length := by
      cases cs <;> simp
    simp only [List.length_cons]
    omega
  · simp
  · simp

/-- Second inline replace: single-star or single-underscore spans (lazy
bodies) into emphasis elements. -/
def emPass (l : List Char) : List Char :=
  match l with
  | [] => []
  | c :: cs =>
    if c = '*' ∨ c = '_' then
      match h : splitOnChar c cs with
      | some (b, a) => emOpenL ++ b ++ emCloseL ++ emPass a
      | none => c :: emPass cs
    else c :: emPass cs
termination_by l.length
decreasing_by
  · have hlen := splitOnChar_length h
    simp only [List.length_cons]
    omega
  · simp
  · simp

/-- Third inline replace: backtick-delimited nonempty code spans. -/
def codePass (l : List Char) : List Char :=
  match l with
  | [] => []
  | c :: cs =>
    if c = btChar then
      match h : splitOnCode cs with
      | some (b, a) => codeOpenL ++ b ++ codeCloseL ++ codePass a
      | none => c :: codePass cs
    else c :: codePass cs
termination_by l.length
decreasing_by
  · have hlen := splitOnCode_length h
    simp only [List.length_cons]
    omega
  · simp
  · simp

/-- The chained inline transforms applied to a non-heading line, in source
order: strong, then emphasis, then inline code. -/
def applyInlineL (l : List Char) : List Char := codePass (emPass (strongPass l))

/-- The ordered-list line pattern (leading whitespace, digits, a dot, one
whitespace character, captured rest). -/
def olMatch (l : List Char) : Option (List Char) :=
  let r := l.dropWhile isWs
  let ds := r.takeWhile Char.isDigit
  match r.dropWhile Char.isDigit with
  | '.' :: w :: rest => if ds ≠ [] ∧ isWs w then some rest else none
  | _ => none

/-- The unordered-list line pattern (leading whitespace, a star or hyphen,
one whitespace character, captured rest). -/
def ulMatch (l : List Char) : Option (List Char) :=
  match l.dropWhile isWs with
  | c :: w :: rest => if (c = '*' ∨ c = '-') ∧ isWs w then some rest else none
  | _ => none

/-- Kind of the currently open list block. -/
inductive LKind where
  | ul
  | ol
deriving DecidableEq

/-- Opening tag of the paragraph container. -/
def pOpenL : List Char := "<p class=\"my-2\">".data

/-- Closing tag of the paragraph container. -/
def pCloseL : List Char := "</p>".data

/-- The explicit line-break marker joining accumulated paragraph lines. -/
def brL : List Char := "<br/>".data

/-- Level-1 heading element. -/
def h1Wrap (t : List Char) : List Char :=
  "<h1 class=\"text-xl font-bold text-clinic-orange mt-4 mb-2 border-b border-clinic-orange/20 pb-1\">".data
    ++ t ++ "</h1>".data

/-- Level-2 heading element. -/
def h2Wrap (t : List Char) : List Char :=
  "<h2 class=\"text-lg font-bold text-clinic-blue mt-3 mb-2\">".data ++ t ++ "</h2>".data

/-- Ordered-list opening tag. -/
def olOpenL : List Char := "<ol class=\"list-decimal list-inside my-2 pl-5 space-y-1\">".data

/-- Unordered-list opening tag. -/
def ulOpenL : List Char := "<ul class=\"list-none my-2 pl-2 space-y-1\">".data

/-- Ordered-list item element. -/
def olItem (t : List Char) : List Char := "<li>".data ++ t ++ "</li>".data

/-- Unordered-list item element with the custom dot glyph. -/
def ulItem (t : List Char) : List Char :=
  "<li class=\"flex items-start\"><span class=\"mr-2 text-clinic-orange font-bold text-lg leading-none\">•</span><span>".data
    ++ t ++ "</span></li>".data

/-- `flushPara`: emit the paragraph container when the buffer is nonempty. -/
def flushP (para : List Char) : List Char :=
  if para = [] then [] else pOpenL ++ para ++ pCloseL

/-- `flushList`: emit the closing tag of the open list block, if any. -/
def flushL : Option LKind → List Char
  | none => []
  | some LKind.ul => "</ul>".data
  | some LKind.ol => "</ol>".data

/-- The line loop of `renderMarkdown`: accumulated output `html`, open list
block `lt`, paragraph buffer `para`. -/
def renderL : List (List Char) → List Char → Option LKind → List Char → List Char
  | [], html, lt, para => html ++ flushP para ++ flushL lt
  | l :: ls, html, lt, para =>
    if strHead "# ".data l then
      renderL ls (html ++ flushP para ++ flushL lt ++ h1Wrap (l.drop 2)) none []
    else if strHead "## ".data l then
      renderL ls (html ++ flushP para ++ flushL lt ++ h2Wrap (l.drop 3)) none []
    else
      let t := applyInlineL l
      match olMatch t with
      | some body =>
        if lt = some LKind.ol then
          renderL ls (html ++ flushP para ++ olItem body) lt []
        else
          renderL ls (html ++ flushP para ++ flushL lt ++ olOpenL ++ olItem body)
            (some LKind.ol) []
      | none =>
        match ulMatch t with
        | some body =>
          if lt = some LKind.ul then
            renderL ls (html ++ flushP para ++ ulItem body) lt []
          else
            renderL ls (html ++ flushP para ++ flushL lt ++ ulOpenL ++ ulItem body)
              (some LKind.ul) []
        | none =>
          if t.all isWs then
            renderL ls (html ++ flushL lt ++ flushP para) none []
          else
            renderL ls (html ++ flushL lt) none
              (para ++ (if para = [] then [] else brL) ++ t)

/-- `renderMarkdown` from `ChatInterface.tsx`: empty (falsy) input yields
empty markup; otherwise the input is split at newlines and fed through the
line loop with empty accumulators.  (The JS function packs the result into
a `dangerouslySetInnerHTML` object; we model the markup string itself.) -/
def renderMarkdown (text : String) : String :=
  if text = "" then "" else String.mk (renderL (splitNl text.data) [] none [])

/-- Join character-list segments with a separator. -/
def joinWith (sep : List Char) : List (List Char) → List Char
  | [] => []
  | [l] => l
  | l :: ls => l ++ sep ++ joinWith sep ls

/-- A line with no recognized Markdown syntax: no heading marker, the inline
transforms leave it unchanged, no list pattern matches, and it is not blank. -/
def PlainL (l : List Char) : Prop :=
  strHead "# ".data l = false ∧ strHead "## ".data l = false ∧
    applyInlineL l = l ∧ olMatch l = none ∧ ulMatch l = none ∧ l.all isWs = false

/-- A character that takes part in no Markdown construct of the renderer:
not an inline delimiter and not whitespace (so also no newline, and no
heading/list marker can complete, since those need a following space). -/
def noSpecialChar (c : Char) : Prop :=
  c ≠ '*' ∧ c ≠ '_' ∧ c ≠ btChar ∧ isWs c = false

instance noSpecialChar.instDecidable (c : Char) : Decidable (noSpecialChar c) := by
  unfold noSpecialChar
  infer_instance

theorem strongPass_clean : ∀ l : List Char, (∀ c ∈ l, c ≠ '*' ∧ c ≠ '_') →
    strongPass l = l := by
  intro l
  induction l with
  | nil => intro _; rw [strongPass]
  | cons c cs ih =>
    intro h
    have hc : c ≠ '*' ∧ c ≠ '_' := h c (List.mem_cons_self c cs)
    rw [strongPass]
    rw [if_neg (by rintro ⟨hor, _⟩; rcases hor with h1 | h1
                   · exact hc.1 h1
                   · exact hc.2 h1)]
    rw [ih (fun x hx => h x (List.mem_cons_of_mem c hx))]

theorem emPass_clean : ∀ l : List Char, (∀ c ∈ l, c ≠ '*' ∧ c ≠ '_') →
    emPass l = l := by
  intro l
  induction l with
  | nil => intro _; rw [emPass]
  | cons c cs ih =>
    intro h
    have hc : c ≠ '*' ∧ c ≠ '_' := h c (List.mem_cons_self c cs)
    rw [emPass]
    rw [if_neg (by rintro (h1 | h1)
                   · exact hc.1 h1
                   · exact hc.2 h1)]
    rw [ih (fun x hx => h x (List.mem_cons_of_mem c hx))]

theorem codePass_clean : ∀ l : List Char, (∀ c ∈ l, c ≠ btChar) →
    codePass l = l := by
  intro l
  induction l with
  | nil => intro _; rw [codePass]
  | cons c cs ih =>
    intro h
    have hc : c ≠ btChar := h c (List.mem_cons_self c cs)
    rw [codePass]
    rw [if_neg hc]
    rw [ih (fun x hx => h x (List.mem_cons_of_mem c hx))]

theorem applyInlineL_clean (l : List Char)
    (h : ∀ c ∈ l, c ≠ '*' ∧ c ≠ '_' ∧ c ≠ btChar) : applyInlineL l = l := by
  unfold applyInlineL
  rw [strongPass_clean l (fun c hc => ⟨(h c hc).1, (h c hc).2.1⟩)]
  rw [emPass_clean l (fun c hc => ⟨(h c hc).1, (h c hc).2.1⟩)]
  rw [codePass_clean l (fun c hc => (h c hc).2.2)]

theorem splitNl_ne_nil : ∀ l : List Char, splitNl l ≠ [] := by
  intro l
  cases l with
  | nil => simp [splitNl]
  | cons c cs =>
    rw [splitNl]
    by_cases hc : c = '\n'
    · simp [hc]
    · rw [if_neg hc]
      cases splitNl cs <;> simp

theorem splitNl_no_nl : ∀ l : List Char, (∀ c ∈ l, c ≠ '\n') → splitNl l = [l] := by
  intro l
  induction l with
  | nil => intro _; rfl
  | cons c cs ih =>
    intro h
    rw [splitNl, if_neg (h c (List.mem_cons_self c cs))]
    rw [ih (fun x hx => h x (List.mem_cons_of_mem c hx))]

theorem olMatch_none_of_head (c : Char) (l : List Char) (hws : isWs c = false)
    (hd : Char.isDigit c = false) (hdot : c ≠ '.') : olMatch (c :: l) = none := by
  unfold olMatch
  simp only [List.dropWhile_cons, hws, Bool.false_eq_true, if_false, List.takeWhile_cons, hd,
    List.dropWhile]
  split
  · rename_i heq
    exfalso
    exact hdot (by injection heq)
  · rfl

theorem ulMatch_none_of_head (c : Char) (l : List Char) (hws : isWs c = false)
    (hm : c ≠ '*' ∧ c ≠ '-') : ulMatch (c :: l) = none := by
  unfold ulMatch
  simp only [List.dropWhile_cons, hws, Bool.false_eq_true, if_false]
  split
  · rename_i c2 w rest heq
    injection heq with h1 h2
    subst h1
    rw [if_neg (by rintro ⟨h3 | h3, _⟩
                   · exact hm.1 h3
                   · exact hm.2 h3)]
  · rfl


theorem olMatch_none_of_noWs (c : Char) (cs : List Char) (hws : isWs c = false)
    (hall : ∀ x ∈ cs, isWs x = false) : olMatch (c :: cs) = none := by
  unfold olMatch
  simp only [List.dropWhile_cons, hws, Bool.false_eq_true, if_false]
  by_cases hdg : Char.isDigit c = true
  · simp only [List.takeWhile_cons, hdg, if_true, List.dropWhile_cons]
    split
    · rename_i w rest heq
      have hw : isWs w = false := by
        have hsub : List.Sublist (List.dropWhile Char.isDigit cs) cs :=
          List.dropWhile_sublist _
        have hmem : w ∈ List.dropWhile Char.isDigit cs := by rw [heq]; simp
        exact hall w (hsub.mem hmem)
      simp [hw]
    · rfl
  · have hdg' : Char.isDigit c = false := by
      cases hdgb : Char.isDigit c
      · rfl
      · exact absurd hdgb hdg
    simp only [List.takeWhile_cons, hdg', Bool.false_eq_true, if_false, List.dropWhile_cons]
    split
    · simp
    · rfl

theorem ulMatch_none_of_noWs (c : Char) (cs : List Char) (hws : isWs c = false)
    (hall : ∀ x ∈ cs, isWs x = false) : ulMatch (c :: cs) = none := by
  unfold ulMatch
  simp only [List.dropWhile_cons, hws, Bool.false_eq_true, if_false]
  split
  · rename_i c1 w rest heq
    have hw : isWs w = false := by
      have hcs : cs = w :: rest := by
        have h2 := congrArg List.tail heq
        simpa using h2
      exact hall w (by rw [hcs]; simp)
    rw [if_neg (by rintro ⟨_, hw2⟩; rw [hw] at hw2; exact Bool.false_ne_true hw2)]
  · rfl

theorem plainL_of_noSpecial (l : List Char) (hne : l ≠ [])
    (h : ∀ c ∈ l, noSpecialChar c) : PlainL l := by
  obtain ⟨c, cs, rfl⟩ : ∃ c cs, l = c :: cs := by
    cases l with
    | nil => exact absurd rfl hne
    | cons c cs => exact ⟨c, cs, rfl⟩
  have hc := h c (List.mem_cons_self c cs)
  obtain ⟨hstar, hund, hbt, hws⟩ := hc
  have hallws : ∀ x ∈ cs, isWs x = false :=
    fun x hx => (h x (List.mem_cons_of_mem c hx)).2.2.2
  refine ⟨?_, ?_, ?_, ?_, ?_, ?_⟩
  · show strHead ('#' :: ' ' :: []) (c :: cs) = false
    by_cases hh : c = '#'
    · subst hh
      cases cs with
      | nil => rfl
      | cons c2 cs2 =>
        have hc2 : isWs c2 = false := hallws c2 (by simp)
        show (('#' : Char) == '#' && ((' ' : Char) == c2 && strHead [] cs2)) = false
        have hne2 : ((' ' : Char) == c2) = false := by
          simp only [beq_eq_false_iff_ne, ne_eq]
          intro hsp
          rw [← hsp] at hc2
          simp [isWs] at hc2
        simp [hne2]
    · show ((('#' : Char) == c) && _) = false
      simp [beq_eq_false_iff_ne, Ne.symm hh]
  · show strHead ('#' :: '#' :: ' ' :: []) (c :: cs) = false
    by_cases hh : c = '#'
    · subst hh
      cases cs with
      | nil => rfl
      | cons c2 cs2 =>
        by_cases hh2 : c2 = '#'
        · subst hh2
          cases cs2 with
          | nil => rfl
          | cons c3 cs3 =>
            have hc3 : isWs c3 = false := hallws c3 (by simp)
            show (('#' : Char) == '#' && (('#' : Char) == '#' && ((' ' : Char) == c3 && strHead [] cs3))) = false
            have hne3 : ((' ' : Char) == c3) = false := by
              simp only [beq_eq_false_iff_ne, ne_eq]
              intro hsp
              rw [← hsp] at hc3
              simp [isWs] at hc3
            simp [hne3]
        · show (('#' : Char) == '#' && (('#' : Char) == c2 && _)) = false
          simp [beq_eq_false_iff_ne, Ne.symm hh2]
    · show ((('#' : Char) == c) && _) = false
      simp [beq_eq_false_iff_ne, Ne.symm hh]
  · exact applyInlineL_clean _ (fun x hx => ⟨(h x hx).1, (h x hx).2.1, (h x hx).2.2.1⟩)
  · exact olMatch_none_of_noWs c cs hws hallws
  · exact ulMatch_none_of_noWs c cs hws hallws
  · simp [List.all_cons, hws]

theorem joinWith_cons_cons (sep a b : List Char) (t : List (List Char)) :
    joinWith sep (a :: b :: t) = a ++ sep ++ joinWith sep (b :: t) := rfl

theorem foldl_br_joinWith : ∀ (ls : List (List Char)) (l0 : List Char),
    List.foldl (fun acc l => acc ++ brL ++ l) l0 ls = joinWith brL (l0 :: ls) := by
  intro ls
  induction ls with
  | nil => intro l0; rfl
  | cons l1 t ih =>
    intro l0
    rw [List.foldl_cons, ih (l0 ++ brL ++ l1), joinWith_cons_cons]
    cases t with
    | nil => simp [joinWith, List.append_assoc]
    | cons l2 t2 => rw [joinWith_cons_cons, joinWith_cons_cons]; simp [List.append_assoc]

theorem renderL_plain : ∀ (ls : List (List Char)) (html para : List Char),
    para ≠ [] → (∀ l ∈ ls, PlainL l) →
    renderL ls html none para =
      html ++ pOpenL ++ List.foldl (fun acc l => acc ++ brL ++ l) para ls ++ pCloseL := by
  intro ls
  induction ls with
  | nil =>
    intro html para hp _
    rw [renderL]
    simp [flushP, flushL, hp, List.append_assoc]
  | cons l ls ih =>
    intro html para hp h
    obtain ⟨h1, h2, h3, h4, h5, h6⟩ := h l (List.mem_cons_self l ls)
    rw [renderL]
    rw [if_neg (by rw [h1]; exact Bool.false_ne_true)]
    rw [if_neg (by rw [h2]; exact Bool.false_ne_true)]
    simp only [h3, h4, h5, h6, Bool.false_eq_true, if_false]
    rw [if_neg hp]
    rw [ih (html ++ flushL none) (para ++ brL ++ l)
      (by simp [hp]) (fun x hx => h x (List.mem_cons_of_mem l hx))]
    simp [flushL]

/-- Non-empty text whose lines all hold no Markdown syntax renders as one
paragraph container holding the lines joined by the line-break marker. -/
theorem renderMarkdown_plain_general (text : String) (h0 : text ≠ "")
    (hp : ∀ l ∈ splitNl text.data, PlainL l) :
    renderMarkdown text = String.mk (pOpenL ++ joinWith brL (splitNl text.data) ++ pCloseL) := by
  unfold renderMarkdown
  rw [if_neg h0]
  obtain ⟨l0, ls, hsplit⟩ : ∃ l0 ls, splitNl text.data = l0 :: ls := by
    cases hs : splitNl text.data with
    | nil => exact absurd hs (splitNl_ne_nil _)
    | cons a b => exact ⟨a, b, rfl⟩
  rw [hsplit]
  obtain ⟨h1, h2, h3, h4, h5, h6⟩ := hp l0 (by rw [hsplit]; exact List.mem_cons_self l0 ls)
  have hl0ne : l0 ≠ [] := by
    intro hnil
    rw [hnil] at h6
    simp at h6
  have hr : renderL (l0 :: ls) [] none [] = renderL ls [] none l0 := by
    rw [renderL]
    rw [if_neg (by rw [h1]; exact Bool.false_ne_true)]
    rw [if_neg (by rw [h2]; exact Bool.false_ne_true)]
    simp only [h3, h4, h5, h6, Bool.false_eq_true, if_false, flushL]
    simp
  rw [hr]
  rw [renderL_plain ls [] l0 hl0ne (fun x hx => hp x (by rw [hsplit]; exact List.mem_cons_of_mem l0 hx))]
  rw [foldl_br_joinWith]
  simp

theorem strongPass_cons_noop (c : Char) (cs : List Char)
    (h : ¬((c = '*' ∨ c = '_') ∧ cs.head? = some c)) :
    strongPass (c :: cs) = c :: strongPass cs := by
  rw [strongPass, if_neg h]

theorem strongPass_cons_open_none (c : Char) (cs : List Char)
    (h : (c = '*' ∨ c = '_') ∧ cs.head? = some c)
    (hs : splitOnPair c cs.tail = none) :
    strongPass (c :: cs) = c :: strongPass cs := by
  rw [strongPass, if_pos h]
  split
  · rename_i b a heq
    rw [hs] at heq
    cases heq
  · rfl

theorem strongPass_cons_open_some (c : Char) (cs b a : List Char)
    (h : (c = '*' ∨ c = '_') ∧ cs.head? = some c)
    (hs : splitOnPair c cs.tail = some (b, a)) :
    strongPass (c :: cs) = strongOpenL ++ b ++ strongCloseL ++ strongPass a := by
  rw [strongPass, if_pos h]
  split
  · rename_i b2 a2 heq
    rw [hs] at heq
    injection heq with h2
    cases h2
    rfl
  · rename_i heq
    rw [hs] at heq
    cases heq

theorem emPass_cons_noop (c : Char) (cs : List Char) (h : ¬(c = '*' ∨ c = '_')) :
    emPass (c :: cs) = c :: emPass cs := by
  rw [emPass, if_neg h]

theorem emPass_cons_open_none (c : Char) (cs : List Char)
    (h : c = '*' ∨ c = '_') (hs : splitOnChar c cs = none) :
    emPass (c :: cs) = c :: emPass cs := by
  rw [emPass, if_pos h]
  split
  · rename_i b a heq
    rw [hs] at heq
    cases heq
  · rfl

theorem emPass_cons_open_some (c : Char) (cs b a : List Char)
    (h : c = '*' ∨ c = '_') (hs : splitOnChar c cs = some (b, a)) :
    emPass (c :: cs) = emOpenL ++ b ++ emCloseL ++ emPass a := by
  rw [emPass, if_pos h]
  split
  · rename_i b2 a2 heq
    rw [hs] at heq
    injection heq with h2
    cases h2
    rfl
  · rename_i heq
    rw [hs] at heq
    cases heq

theorem strHead_cons_ne (p : Char) (ps : List Char) (c : Char) (l : List Char)
    (h : (p == c) = false) : strHead (p :: ps) (c :: l) = false := by
  show (p == c && strHead ps l) = false
  rw [h]
  rfl

/-- Rendering a single non-heading, non-list, non-blank line whose inline
transform yields `t` produces exactly one paragraph container around `t`. -/
theorem renderL_single_para (l t : List Char) (h1 : strHead "# ".data l = false)
    (h2 : strHead "## ".data l = false) (ht : applyInlineL l = t)
    (h4 : olMatch t = none) (h5 : ulMatch t = none) (h6 : t.all isWs = false) :
    renderL [l] [] none [] = pOpenL ++ t ++ pCloseL := by
  rw [renderL]
  rw [if_neg (by rw [h1]; exact Bool.false_ne_true)]
  rw [if_neg (by rw [h2]; exact Bool.false_ne_true)]
  simp only [ht, h4, h5, h6, Bool.false_eq_true, if_false, flushL]
  rw [renderL]
  have htne : t ≠ [] := by
    intro hnil
    rw [hnil] at h6
    simp at h6
  simp [flushP, flushL, htne]

/-- Rendering of non-empty special-character-free text: one paragraph
container around the text itself. -/
theorem renderMarkdown_noSpecial (text : String) (h0 : text ≠ "")
    (h : ∀ c ∈ text.data, noSpecialChar c) :
    renderMarkdown text = String.mk (pOpenL ++ text.data ++ pCloseL) := by
  have hne : text.data ≠ [] := by
    intro hd
    apply h0
    cases text with
    | mk d =>
      have hd' : d = [] := hd
      rw [hd']
  obtain ⟨h1, h2, h3, h4, h5, h6⟩ := plainL_of_noSpecial text.data hne h
  have hnl : ∀ c ∈ text.data, c ≠ '\n' := by
    intro c hc he
    have := (h c hc).2.2.2
    rw [he] at this
    simp [isWs] at this
  unfold renderMarkdown
  rw [if_neg h0, splitNl_no_nl _ hnl]
  rw [renderL_single_para text.data text.data h1 h2 h3 h4 h5 h6]

/-- Rendering the paragraph-wrapped form of special-character-free text
wraps it in one further paragraph container. -/
theorem renderMarkdown_wrapped (text : String)
    (h : ∀ c ∈ text.data, noSpecialChar c) :
    renderMarkdown (String.mk (pOpenL ++ text.data ++ pCloseL)) =
      String.mk (pOpenL ++ (pOpenL ++ text.data ++ pCloseL) ++ pCloseL) := by
  have hpo : pOpenL = '<' :: "p class=\"my-2\">".data := by decide
  have hcons : pOpenL ++ text.data ++ pCloseL =
      '<' :: ("p class=\"my-2\">".data ++ text.data ++ pCloseL) := by
    rw [hpo]
    simp [List.append_assoc]
  have hPO : ∀ x ∈ pOpenL, x ≠ '*' ∧ x ≠ '_' ∧ x ≠ btChar ∧ x ≠ '\n' := by decide
  have hPC : ∀ x ∈ pCloseL, x ≠ '*' ∧ x ≠ '_' ∧ x ≠ btChar ∧ x ≠ '\n' := by decide
  have hmem : ∀ c ∈ pOpenL ++ text.data ++ pCloseL,
      c ≠ '*' ∧ c ≠ '_' ∧ c ≠ btChar := by
    intro c hc
    rcases List.mem_append.mp hc with hc2 | hc2
    · rcases List.mem_append.mp hc2 with hc3 | hc3
      · exact ⟨(hPO c hc3).1, (hPO c hc3).2.1, (hPO c hc3).2.2.1⟩
      · exact ⟨(h c hc3).1, (h c hc3).2.1, (h c hc3).2.2.1⟩
    · exact ⟨(hPC c hc2).1, (hPC c hc2).2.1, (hPC c hc2).2.2.1⟩
  have hnonl : ∀ c ∈ pOpenL ++ text.data ++ pCloseL, c ≠ '\n' := by
    intro c hc
    rcases List.mem_append.mp hc with hc2 | hc2
    · rcases List.mem_append.mp hc2 with hc3 | hc3
      · exact (hPO c hc3).2.2.2
      · intro he
        have := (h c hc3).2.2.2
        rw [he] at this
        simp [isWs] at this
    · exact (hPC c hc2).2.2.2
  have h0' : String.mk (pOpenL ++ text.data ++ pCloseL) ≠ "" := by
    intro he
    have hdata : pOpenL ++ text.data ++ pCloseL = ([] : List Char) := congrArg String.data he
    rw [hcons] at hdata
    cases hdata
  unfold renderMarkdown
  rw [if_neg h0']
  rw [show (String.mk (pOpenL ++ text.data ++ pCloseL)).data =
        pOpenL ++ text.data ++ pCloseL from rfl]
  rw [splitNl_no_nl _ hnonl]
  rw [renderL_single_para _ _ ?hh1 ?hh2 ?hh3 ?hh4 ?hh5 ?hh6]
  case hh1 =>
    rw [hcons]
    exact strHead_cons_ne _ _ _ _ (by decide)
  case hh2 =>
    rw [hcons]
    exact strHead_cons_ne _ _ _ _ (by decide)
  case hh3 => exact applyInlineL_clean _ hmem
  case hh4 =>
    rw [hcons]
    exact olMatch_none_of_head _ _ (by decide) (by decide) (by decide)
  case hh5 =>
    rw [hcons]
    exact ulMatch_none_of_head _ _ (by decide) ⟨by decide, by decide⟩
  case hh6 =>
    rw [hcons]
    simp [List.all_cons, show isWs '<' = false from by decide]

/-- C7: every non-empty input whose lines contain no recognized Markdown
syntax (no heading prefix, no list pattern, inline transforms leave the line
unchanged, no blank line) renders as the input wrapped verbatim in a single
paragraph container, with the lines joined by the line-break marker in their
original positions. -/
theorem renderMarkdown_no_syntax_single_paragraph (text : String) (h0 : text ≠ "")
    (hp : ∀ l ∈ splitNl text.data, PlainL l) :
    renderMarkdown text =
      "<p class=\"my-2\">" ++ String.mk (joinWith brL (splitNl text.data)) ++ "</p>" := by
  rw [renderMarkdown_plain_general text h0 hp]
  rfl

/-- Witness for C7 on a concrete two-line plain input. -/
theorem renderMarkdown_no_syntax_single_paragraph_witness :
    renderMarkdown "hello\nworld" = "<p class=\"my-2\">hello<br/>world</p>" := by
  have hs : splitNl ("hello\nworld").data = ["hello".data, "world".data] := by decide
  have hp : ∀ l ∈ splitNl ("hello\nworld").data, PlainL l := by
    rw [hs]
    intro l hl
    have hl2 : l = "hello".data ∨ l = "world".data := by simpa using hl
    rcases hl2 with rfl | rfl
    · exact plainL_of_noSpecial _ (by decide) (by decide)
    · exact plainL_of_noSpecial _ (by decide) (by decide)
  rw [renderMarkdown_no_syntax_single_paragraph "hello\nworld" (by decide) hp]
  rw [hs]
  decide

/-- C10: the empty (falsy) input yields empty markup with no paragraph
container at all, and flushing an empty paragraph buffer or an absent list
emits nothing. -/
theorem renderMarkdown_empty_input :
    renderMarkdown "" = "" ∧ flushP [] = [] ∧ flushL none = [] :=
  ⟨by decide, rfl, rfl⟩

/-- C8 counterexample: the renderer is not idempotent even on special-free
content (a second application wraps a further paragraph container), and an
unmatched double star does not render literally (the single-star rule turns
it into an empty emphasis element). -/
theorem renderMarkdown_c8_counterexample :
    renderMarkdown (renderMarkdown "abc") ≠ renderMarkdown "abc" ∧
      renderMarkdown "**abc" = "<p class=\"my-2\"><em></em>abc</p>" := by
  constructor
  · have ha : renderMarkdown "abc" = String.mk (pOpenL ++ "abc".data ++ pCloseL) :=
      renderMarkdown_noSpecial "abc" (by decide) (by decide)
    have hb := renderMarkdown_wrapped "abc" (by decide)
    rw [ha, hb]
    decide
  · have hs : splitNl "**abc".data = [('*' :: '*' :: 'a' :: 'b' :: 'c' :: [])] := by decide
    have hst : strongPass ('*' :: '*' :: 'a' :: 'b' :: 'c' :: []) =
        '*' :: '*' :: 'a' :: 'b' :: 'c' :: [] := by
      rw [strongPass_cons_open_none '*' ('*' :: 'a' :: 'b' :: 'c' :: [])
        ⟨Or.inl rfl, rfl⟩ (by decide)]
      rw [strongPass_cons_noop '*' ('a' :: 'b' :: 'c' :: []) (by decide)]
      rw [strongPass_clean ('a' :: 'b' :: 'c' :: []) (by decide)]
    have hem : emPass ('*' :: '*' :: 'a' :: 'b' :: 'c' :: []) =
        emOpenL ++ emCloseL ++ ('a' :: 'b' :: 'c' :: []) := by
      rw [emPass_cons_open_some '*' ('*' :: 'a' :: 'b' :: 'c' :: []) []
        ('a' :: 'b' :: 'c' :: []) (Or.inl rfl) (by decide)]
      rw [emPass_clean ('a' :: 'b' :: 'c' :: []) (by decide)]
      rfl
    have happ : applyInlineL ('*' :: '*' :: 'a' :: 'b' :: 'c' :: []) =
        "<em></em>abc".data := by
      unfold applyInlineL
      rw [hst, hem]
      rw [codePass_clean _ (by decide)]
      decide
    unfold renderMarkdown
    rw [if_neg (by decide)]
    rw [hs]
    rw [renderL_single_para _ _ (by decide) (by decide) happ (by decide) (by decide) (by decide)]
    decide

/-- C8 (amended): the renderer is total, so it never throws, but it is not
idempotent: on non-empty content made only of characters that take part in
no Markdown construct, a second application wraps the first result in one
further paragraph container (and is therefore different from it); malformed
constructs degrade without error but not always literally (an unmatched
double star becomes an empty emphasis element). -/
theorem renderMarkdown_double_application (text : String) (h0 : text ≠ "")
    (h : ∀ c ∈ text.data, noSpecialChar c) :
    renderMarkdown (renderMarkdown text) =
        "<p class=\"my-2\">" ++ renderMarkdown text ++ "</p>" ∧
      renderMarkdown (renderMarkdown text) ≠ renderMarkdown text := by
  have ha : renderMarkdown text = String.mk (pOpenL ++ text.data ++ pCloseL) :=
    renderMarkdown_noSpecial text h0 h
  have hb := renderMarkdown_wrapped text h
  constructor
  · rw [ha, hb]
    rfl
  · rw [ha, hb]
    intro he
    have hdata := congrArg (fun s => s.data.length) he
    simp only [List.length_append] at hdata
    have hpol : pOpenL.length = 16 := by decide
    have hpcl : pCloseL.length = 4 := by decide
    omega

/-- Witness for the amended C8 at concrete special-free content. -/
theorem renderMarkdown_double_application_witness :
    renderMarkdown (renderMarkdown "abc") =
        "<p class=\"my-2\">" ++ renderMarkdown "abc" ++ "</p>" ∧
      renderMarkdown (renderMarkdown "abc") ≠ renderMarkdown "abc" :=
  renderMarkdown_double_application "abc" (by decide) (by decide)

/-! Application state machine (`App.tsx`). -/

/-- `AppStatus` from `types.ts`, as used by `App.tsx`. -/
inductive AppStatus where
  | Initializing
  | Welcome
  | Uploading
  | Binding
  | Chatting
  | Error
deriving DecidableEq

/-- Message role. -/
inductive Role where
  | user
  | model
deriving DecidableEq

/-- `ChatMessage`: role, text (the single `parts` entry), grounding chunks
and crisis flag; an absent (undefined) field is modelled as `[]` or
`false`. -/
structure ChatMessage where
  role : Role
  text : String
  groundingChunks : List GroundingChunk
  isCrisis : Bool
deriving DecidableEq

/-- The transient upload-progress record. -/
structure UploadProgress where
  current : Nat
  total : Nat
  message : String
  fileName : Option String
deriving DecidableEq

/-- The React state of the `App` component; files are identified by name. -/
structure AppState where
  status : AppStatus
  isApiKeySelected : Bool
  apiKeyError : Option String
  error : Option String
  uploadProgress : Option UploadProgress
  activeRagStoreName : Option String
  chatHistory : List ChatMessage
  isQueryLoading : Bool
  exampleQuestions : List String
  documentName : String
  files : List String
  patientName : String
deriving DecidableEq

/-- The initial state of the component's `useState` hooks. -/
def initialState : AppState :=
  { status := AppStatus.Initializing, isApiKeySelected := false, apiKeyError := none,
    error := none, uploadProgress := none, activeRagStoreName := none, chatHistory := [],
    isQueryLoading := false, exampleQuestions := [], documentName := "", files := [],
    patientName := "" }

/-- Outcomes of the remote calls a provisioning run makes, one oracle field
per call site (`createRagStore`, `uploadToRagStore` per file index,
`generateExampleQuestions`); the `initialize()` constructor call is modelled
as non-failing. -/
structure SetupOracle where
  createStore : Except String String
  uploadFile : Nat → Except String Unit
  genQuestions : Except String (List String)

/-- Observable events of a provisioning run: progress updates (the arguments
of `setUploadProgress`) and the remote calls, in execution order. -/
inductive SEvent where
  | progress (current total : Nat) (message : String) (fileName : Option String)
  | createCall
  | uploadCall (i : Nat) (name : String)
  | genCall
deriving DecidableEq

/-- The sequential per-file upload loop: before each upload it updates
progress with current index `i + 1` and the formatted file label, then
issues the upload; a failing upload aborts the rest and reports its
message. -/
def runUploads (upl : Nat → Except String Unit) (n total : Nat) :
    List String → Nat → List SEvent × Option String
  | [], _ => ([], none)
  | name :: rest, i =>
    let ev1 := SEvent.progress (i + 1) total "正在匯入文件..."
      (some ("(" ++ toString (i + 1) ++ "/" ++ toString n ++ ") " ++ name))
    let ev2 := SEvent.uploadCall i name
    match upl i with
    | Except.ok _ =>
      let r := runUploads upl n total rest (i + 1)
      (ev1 :: ev2 :: r.1, r.2)
    | Except.error e => ([ev1, ev2], some e)

/-- The catch block of `handleAdminSetupComplete`: an invalid-credential
message (lower-cased message containing "api key not valid" or "requested
entity was not found") routes back to Welcome with an inline key error and
the key flag cleared; any other failure goes to the fatal Error status via
`handleError`.  The finally block clears the progress record. -/

def isInvalidCredMsg (e : String) : Bool :=
  jsIncludes (jsToLower e) "api key not valid"
    || jsIncludes (jsToLower e) "requested entity was not found"

def applyCatch (s : AppState) (e : String) : AppState :=
  if isInvalidCredMsg e then
    { s with apiKeyError := some "選擇的 API Key 無效，請重新選擇。",
             isApiKeySelected := false, status := AppStatus.Welcome,
             uploadProgress := none }
  else
    { s with error := some ("啟動會話失敗: " ++ e), status := AppStatus.Error,
             uploadProgress := none }

/-- `handleAdminSetupComplete`: reject without a selected key (inline key
error, state otherwise unchanged); otherwise enter Uploading and run the
provisioning sequence — create store, upload each file sequentially,
generate example questions, then hold the ready state and move to Binding
with the store bound, history cleared and files emptied.  Returns the final
state and the observable event trace. -/
def handleAdminSetupComplete (s : AppState) (o : SetupOracle) :
    AppState × List SEvent :=
  if s.isApiKeySelected = false then
    ({ s with apiKeyError := some "請先選擇您的 Gemini API Key。" }, [])
  else
    let s1 := { s with apiKeyError := none, status := AppStatus.Uploading }
    let n := s1.files.length
    let total := n + 2
    let ev0 : List SEvent :=
      [SEvent.progress 0 total "正在初始化診所資料庫..." none, SEvent.createCall]
    match o.createStore with
    | Except.error e => (applyCatch s1 e, ev0)
    | Except.ok ragStoreName =>
      let ev1 := ev0 ++ [SEvent.progress 1 total "正在處理知識庫..." none]
      let u := runUploads o.uploadFile n total s1.files 0
      match u.2 with
      | some e => (applyCatch s1 e, ev1 ++ u.1)
      | none =>
        let ev2 := ev1 ++ u.1 ++
          [SEvent.progress (n + 1) total "正在生成建議問題..." (some ""), SEvent.genCall]
        match o.genQuestions with
        | Except.error e => (applyCatch s1 e, ev2)
        | Except.ok qs =>
          let ev3 := ev2 ++ [SEvent.progress total total "系統準備就緒" (some "")]
          let docName := if 0 < n then "診所知識庫" else "診所 AI 助理"
          ({ s1 with exampleQuestions := qs, documentName := docName,
                     activeRagStoreName := some ragStoreName, chatHistory := [],
                     status := AppStatus.Binding, files := [],
                     uploadProgress := none }, ev3)

/-- `handlePatientLogin`: record the verified patient name, seed the chat
with the synthesized welcome message and enter Chatting. -/
def handlePatientLogin (s : AppState) (name : String) : AppState :=
  { s with patientName := name,
           chatHistory := [{ role := Role.model,
                             text := ("# 歡迎回來，" ++ name ++
                               " \n\n今天有什麼我可以幫您的嗎？您可以詢問：\n\n- 門診時間\n- 預約掛號\n- 醫師介紹"),
                             groundingChunks := [], isCrisis := false }],
           status := AppStatus.Chatting }

/-- `handleEndChat`: fire-and-forget deletion of the active store when one
is bound (the outcome of the deletion is ignored, failure only logged), then
clear the store binding, chat history, example questions, document label and
files, and return to Welcome.  The second component lists the store names
whose deletion was requested. -/
def handleEndChat (s : AppState) (delOutcome : Except String Unit) :
    AppState × List String :=
  let dels := match s.activeRagStoreName with
    | some storeName => [storeName]
    | none => []
  ({ s with activeRagStoreName := none, chatHistory := [], exampleQuestions := [],
            documentName := "", files := [], status := AppStatus.Welcome }, dels)

/-- The chat message appended for the outgoing user text. -/
def userMessage (message : String) : ChatMessage :=
  { role := Role.user, text := message, groundingChunks := [], isCrisis := false }

/-- The model message built from a successful `fileSearch` result. -/
def modelMessageOf (r : QueryResult) : ChatMessage :=
  { role := Role.model, text := r.text, groundingChunks := r.groundingChunks,
    isCrisis := r.isCrisis }

/-- The fixed apology message appended when the query call throws. -/
def apologyMessage : ChatMessage :=
  { role := Role.model, text := "抱歉，發生錯誤，請重試。", groundingChunks := [],
    isCrisis := false }

/-- `handleSendMessage`: ignore when no store is bound; otherwise append the
user message, and on success append the model answer, while on failure
append the fixed apology message and escalate through `handleError` (which
sets the error text and the Error status).  `outcome` is the oracle for the
`fileSearch` call. -/
def handleSendMessage (s : AppState) (message : String)
    (outcome : Except String QueryResult) : AppState :=
  if s.activeRagStoreName = none then s
  else
    let s1 : AppState :=
      { s with chatHistory := s.chatHistory ++ [userMessage message],
               isQueryLoading := true }
    match outcome with
    | Except.ok r =>
      { s1 with chatHistory := s1.chatHistory ++ [modelMessageOf r],
                isQueryLoading := false }
    | Except.error e =>
      { s1 with chatHistory := s1.chatHistory ++ [apologyMessage],
                error := some ("取得回應失敗: " ++ e),
                status := AppStatus.Error,
                isQueryLoading := false }

/-- `clearError`: acknowledge the fatal error and return to Welcome. -/
def clearError (s : AppState) : AppState :=
  { s with error := none, status := AppStatus.Welcome }

/-- One UI- or effect-triggered transition of the App component.  Each
handler fires only from the screen that exposes it; the credential poll
(`checkApiKey`, also run after the key picker) and the file selection on the
Welcome screen only update their fields. -/
inductive Step : AppState → AppState → Prop
  | initDone (s : AppState) (h : s.status = AppStatus.Initializing) :
      Step s { s with status := AppStatus.Welcome }
  | checkKey (s : AppState) (b : Bool) :
      Step s { s with isApiKeySelected := b }
  | setFiles (s : AppState) (fs : List String) (h : s.status = AppStatus.Welcome) :
      Step s { s with files := fs }
  | setup (s : AppState) (o : SetupOracle) (h : s.status = AppStatus.Welcome) :
      Step s (handleAdminSetupComplete s o).1
  | login (s : AppState) (name : String) (h : s.status = AppStatus.Binding) :
      Step s (handlePatientLogin s name)
  | endChat (s : AppState) (delOutcome : Except String Unit)
      (h : s.status = AppStatus.Chatting) :
      Step s (handleEndChat s delOutcome).1
  | send (s : AppState) (message : String) (outcome : Except String QueryResult)
      (h : s.status = AppStatus.Chatting) :
      Step s (handleSendMessage s message outcome)
  | ack (s : AppState) (h : s.status = AppStatus.Error) :
      Step s (clearError s)

/-- States reachable from the initial state through the transitions. -/
inductive Reachable : AppState → Prop
  | init : Reachable initialState
  | step (s s2 : AppState) (hr : Reachable s) (hs : Step s s2) : Reachable s2

/-- The Welcome state with a selected credential, as reached by the startup
transition and a successful credential poll. -/
def welcomeKeyState : AppState :=
  { initialState with status := AppStatus.Welcome, isApiKeySelected := true }

/-- A provisioning oracle whose calls all succeed. -/
def demoOracle : SetupOracle :=
  { createStore := Except.ok "ragStores/demo", uploadFile := fun _ => Except.ok (),
    genQuestions := Except.ok [] }

/-- The Binding state produced by a successful zero-file provisioning run. -/
def bindState : AppState := (handleAdminSetupComplete welcomeKeyState demoOracle).1

/-- The Chatting state after patient verification. -/
def chatState : AppState := handlePatientLogin bindState "王小明"

/-- The state after a query failure while Chatting. -/
def queryFailState : AppState :=
  handleSendMessage chatState "您好" (Except.error "boom")

/-- C5: ending the chat from Chatting with a bound store requests deletion of
exactly that store once, clears the store binding, chat history, example
questions, document label and pending files, and returns to Welcome, for
every outcome of the deletion request. -/
theorem handleEndChat_spec (s : AppState) (storeName : String)
    (hstat : s.status = AppStatus.Chatting)
    (hstore : s.activeRagStoreName = some storeName)
    (delOutcome : Except String Unit) :
    (handleEndChat s delOutcome).2 = [storeName] ∧
      (handleEndChat s delOutcome).1.activeRagStoreName = none ∧
      (handleEndChat s delOutcome).1.chatHistory = [] ∧
      (handleEndChat s delOutcome).1.exampleQuestions = [] ∧
      (handleEndChat s delOutcome).1.documentName = "" ∧
      (handleEndChat s delOutcome).1.files = [] ∧
      (handleEndChat s delOutcome).1.status = AppStatus.Welcome := by
  unfold handleEndChat
  rw [hstore]
  exact ⟨rfl, rfl, rfl, rfl, rfl, rfl, rfl⟩

/-- Witness for C5 at the concrete Chatting state, for both a succeeding and
a failing deletion request. -/
theorem handleEndChat_spec_witness :
    ((handleEndChat chatState (Except.ok ())).2 = ["ragStores/demo"] ∧
      (handleEndChat chatState (Except.ok ())).1.activeRagStoreName = none) ∧
    ((handleEndChat chatState (Except.error "down")).2 = ["ragStores/demo"] ∧
      (handleEndChat chatState (Except.error "down")).1.status = AppStatus.Welcome) :=
  ⟨⟨(handleEndChat_spec chatState "ragStores/demo" (by decide) (by decide) (Except.ok ())).1,
    (handleEndChat_spec chatState "ragStores/demo" (by decide) (by decide) (Except.ok ())).2.1⟩,
   ⟨(handleEndChat_spec chatState "ragStores/demo" (by decide) (by decide) (Except.error "down")).1,
    (handleEndChat_spec chatState "ragStores/demo" (by decide) (by decide)
      (Except.error "down")).2.2.2.2.2.2⟩⟩

/-- C3 counterexample: at a Chatting state, a failing query appends exactly
the user message and the fixed apology message, but the status does not stay
Chatting — it becomes Error with the full-screen error text set, because the
catch block also calls `handleError`. -/
theorem sendMessage_failure_counterexample :
    queryFailState.chatHistory = chatState.chatHistory ++ [userMessage "您好", apologyMessage] ∧
      queryFailState.status ≠ AppStatus.Chatting ∧
      queryFailState.status = AppStatus.Error ∧
      queryFailState.error = some "取得回應失敗: boom" := by
  refine ⟨by decide, by decide, by decide, by decide⟩

/-- C3 (amended): when the query call throws while a store is bound, exactly
one model-role apology message is appended after the user message, but the
session does not stay in Chatting: `handleError` runs, the error text is
set and the status becomes Error (the full-screen banner state). -/
theorem sendMessage_failure_behaviour (s : AppState) (message e : String)
    (h : ¬ s.activeRagStoreName = none) :
    handleSendMessage s message (Except.error e) =
      { s with chatHistory := s.chatHistory ++ [userMessage message, apologyMessage],
               error := some ("取得回應失敗: " ++ e),
               status := AppStatus.Error,
               isQueryLoading := false } := by
  unfold handleSendMessage
  rw [if_neg h]
  show ({ s with
          chatHistory := (s.chatHistory ++ [userMessage message]) ++ [apologyMessage],
          error := some ("取得回應失敗: " ++ e), status := AppStatus.Error,
          isQueryLoading := false } : AppState) = _
  rw [List.append_assoc]
  rfl

/-- Witness for the amended C3 at the concrete Chatting state. -/
theorem sendMessage_failure_behaviour_witness :
    handleSendMessage chatState "您好" (Except.error "boom") =
      { chatState with
          chatHistory := chatState.chatHistory ++ [userMessage "您好", apologyMessage],
          error := some "取得回應失敗: boom",
          status := AppStatus.Error,
          isQueryLoading := false } :=
  (sendMessage_failure_behaviour chatState "您好" "boom" (by decide)).trans (by decide)

theorem runUploads_all_ok (upl : Nat → Except String Unit) (n total : Nat)
    (hok : ∀ i, upl i = Except.ok ()) :
    ∀ (names : List String) (i : Nat), (runUploads upl n total names i).2 = none := by
  intro names
  induction names with
  | nil => intro i; rfl
  | cons name rest ih =>
    intro i
    unfold runUploads
    rw [hok i]
    exact ih (i + 1)

/-- C6: a provisioning failure whose lowercased message contains an
invalid-credential substring routes Uploading→Welcome with the key flag
cleared and an inline key error, and never enters the fatal Error status,
while any other failure routes Uploading→Error; this covers failures of the
store-creation call, of the first upload, and of the question-generation
call, all of which funnel into the same catch block. -/
theorem provisioning_failure_classification (s : AppState) (o : SetupOracle) (e : String)
    (hk : s.isApiKeySelected = true) :
    (o.createStore = Except.error e →
      (handleAdminSetupComplete s o).1 =
        applyCatch { s with apiKeyError := none, status := AppStatus.Uploading } e) ∧
    (∀ storeName name rest, o.createStore = Except.ok storeName → s.files = name :: rest →
      o.uploadFile 0 = Except.error e →
      (handleAdminSetupComplete s o).1 =
        applyCatch { s with apiKeyError := none, status := AppStatus.Uploading } e) ∧
    (∀ storeName, o.createStore = Except.ok storeName → (∀ i, o.uploadFile i = Except.ok ()) →
      o.genQuestions = Except.error e →
      (handleAdminSetupComplete s o).1 =
        applyCatch { s with apiKeyError := none, status := AppStatus.Uploading } e) ∧
    (isInvalidCredMsg e = true →
      (applyCatch s e).status = AppStatus.Welcome ∧
      (applyCatch s e).isApiKeySelected = false ∧
      (applyCatch s e).apiKeyError = some "選擇的 API Key 無效，請重新選擇。" ∧
      (applyCatch s e).status ≠ AppStatus.Error) ∧
    (isInvalidCredMsg e = false →
      (applyCatch s e).status = AppStatus.Error ∧
      (applyCatch s e).error = some ("啟動會話失敗: " ++ e)) := by
  refine ⟨?_, ?_, ?_, ?_, ?_⟩
  · intro hc
    simp [handleAdminSetupComplete, hk, hc]
  · intro storeName name rest hc hf hu
    simp [handleAdminSetupComplete, hk, hc, hf, runUploads, hu]
  · intro storeName hc hok hq
    simp [handleAdminSetupComplete, hk, hc, hq, runUploads_all_ok o.uploadFile _ _ hok]
  · intro hinv
    unfold applyCatch
    rw [if_pos hinv]
    exact ⟨rfl, rfl, rfl, fun hcon => by cases hcon⟩
  · intro hinv
    unfold applyCatch
    rw [hinv]
    exact ⟨rfl, rfl⟩

/-- A provisioning oracle whose store-creation call fails with the invalid
API key message. -/
def badKeyOracle : SetupOracle :=
  { createStore := Except.error "API key not valid. Please pass a valid API key.",
    uploadFile := fun _ => Except.ok (), genQuestions := Except.ok [] }

/-- Witness for C6: a failing creation call with the invalid-key message at
the concrete Welcome state with a selected key. -/
theorem provisioning_failure_classification_witness :
    (handleAdminSetupComplete welcomeKeyState badKeyOracle).1 =
      applyCatch { welcomeKeyState with apiKeyError := none, status := AppStatus.Uploading }
        "API key not valid. Please pass a valid API key." ∧
    (applyCatch welcomeKeyState "API key not valid. Please pass a valid API key.").status =
      AppStatus.Welcome :=
  ⟨(provisioning_failure_classification welcomeKeyState badKeyOracle
      "API key not valid. Please pass a valid API key." rfl).1 rfl,
   ((provisioning_failure_classification welcomeKeyState badKeyOracle
      "API key not valid. Please pass a valid API key." rfl).2.2.2.1 (by decide)).1⟩

/-- The `current` values of the progress updates in an event trace, in
order. -/
def progressCurrentsOf (evs : List SEvent) : List Nat :=
  evs.filterMap fun e => match e with
    | SEvent.progress c _ _ _ => some c
    | _ => none

/-- The `total` values of the progress updates in an event trace. -/
def progressTotalsOf (evs : List SEvent) : List Nat :=
  evs.filterMap fun e => match e with
    | SEvent.progress _ t _ _ => some t
    | _ => none

/-- The upload calls of an event trace: file index and file name, in order. -/
def uploadCallsOf (evs : List SEvent) : List (Nat × String) :=
  evs.filterMap fun e => match e with
    | SEvent.uploadCall i nm => some (i, nm)
    | _ => none

/-- The consecutive naturals `a, a+1, ..., a+k-1`. -/
def natsFrom : Nat → Nat → List Nat
  | _, 0 => []
  | a, k + 1 => a :: natsFrom (a + 1) k

theorem runUploads_ok_trace (upl : Nat → Except String Unit) (n total : Nat)
    (hok : ∀ i, upl i = Except.ok ()) :
    ∀ (names : List String) (i : Nat),
      uploadCallsOf (runUploads upl n total names i).1 = List.enumFrom i names ∧
      progressCurrentsOf (runUploads upl n total names i).1 = natsFrom (i + 1) names.length ∧
      progressTotalsOf (runUploads upl n total names i).1 =
        List.replicate names.length total := by
  intro names
  induction names with
  | nil => intro i; exact ⟨rfl, rfl, rfl⟩
  | cons name rest ih =>
    intro i
    obtain ⟨ih1, ih2, ih3⟩ := ih (i + 1)
    refine ⟨?_, ?_, ?_⟩
    · show uploadCallsOf (runUploads upl n total (name :: rest) i).1 = _
      unfold runUploads
      rw [hok i]
      simp only [uploadCallsOf, List.filterMap_cons] at ih1 ⊢
      rw [ih1]
      rfl
    · unfold runUploads
      rw [hok i]
      simp only [progressCurrentsOf, List.filterMap_cons] at ih2 ⊢
      rw [ih2]
      rfl
    · unfold runUploads
      rw [hok i]
      simp only [progressTotalsOf, List.filterMap_cons] at ih3 ⊢
      rw [ih3]
      rfl

/-- C4 (amended): a fully successful provisioning run with `N` pending files
issues exactly `N` upload calls, one per file in input order; every progress
update carries `total = N + 2`; and the observed `progress.current` sequence
is `0, 1, 1, 2, ..., N, N + 1, N + 2` — the loop repeats the value `1`
after the creation step, so the sequence is not strictly increasing, starts
at `0` and ends at `N + 2`. -/
theorem provisioning_progress_spec (s : AppState) (o : SetupOracle)
    (storeName : String) (qs : List String) (hk : s.isApiKeySelected = true)
    (hc : o.createStore = Except.ok storeName)
    (hu : ∀ i, o.uploadFile i = Except.ok ())
    (hq : o.genQuestions = Except.ok qs) :
    uploadCallsOf (handleAdminSetupComplete s o).2 = s.files.enum ∧
    progressCurrentsOf (handleAdminSetupComplete s o).2 =
      [0, 1] ++ natsFrom 1 s.files.length ++ [s.files.length + 1, s.files.length + 2] ∧
    ∀ t ∈ progressTotalsOf (handleAdminSetupComplete s o).2, t = s.files.length + 2 := by
  obtain ⟨hcalls, hcurr, htot⟩ :=
    runUploads_ok_trace o.uploadFile s.files.length (s.files.length + 2) hu s.files 0
  have hnone := runUploads_all_ok o.uploadFile s.files.length (s.files.length + 2) hu s.files 0
  have htrace : (handleAdminSetupComplete s o).2 =
      SEvent.progress 0 (s.files.length + 2) "正在初始化診所資料庫..." none ::
      SEvent.createCall ::
      SEvent.progress 1 (s.files.length + 2) "正在處理知識庫..." none ::
      ((runUploads o.uploadFile s.files.length (s.files.length + 2) s.files 0).1 ++
        (SEvent.progress (s.files.length + 1) (s.files.length + 2) "正在生成建議問題..." (some "") ::
         SEvent.genCall ::
         SEvent.progress (s.files.length + 2) (s.files.length + 2) "系統準備就緒" (some "") ::
         [])) := by
    simp [handleAdminSetupComplete, hk, hc, hq, hnone]
  refine ⟨?_, ?_, ?_⟩
  · rw [show uploadCallsOf (handleAdminSetupComplete s o).2 =
        uploadCallsOf (runUploads o.uploadFile s.files.length
          (s.files.length + 2) s.files 0).1 from by
      rw [htrace]
      simp [uploadCallsOf, List.filterMap_append]]
    rw [hcalls]
    simp [List.enum]
  · rw [show progressCurrentsOf (handleAdminSetupComplete s o).2 =
        0 :: 1 :: (progressCurrentsOf (runUploads o.uploadFile s.files.length
          (s.files.length + 2) s.files 0).1 ++
            [s.files.length + 1, s.files.length + 2]) from by
      rw [htrace]
      simp [progressCurrentsOf, List.filterMap_append]]
    rw [hcurr]
    simp
  · intro t ht
    rw [show progressTotalsOf (handleAdminSetupComplete s o).2 =
        (s.files.length + 2) :: (s.files.length + 2) ::
          (progressTotalsOf (runUploads o.uploadFile s.files.length
            (s.files.length + 2) s.files 0).1 ++
              [s.files.length + 2, s.files.length + 2]) from by
      rw [htrace]
      simp [progressTotalsOf, List.filterMap_append]] at ht
    rw [htot] at ht
    simp at ht
    rcases ht with h | h | h <;>
      first
        | exact h
        | exact h.2
        | (rcases h with h2 | h2 <;> exact h2)

/-- Strict increase of consecutive elements of a list of naturals. -/
def strictIncr : List Nat → Bool
  | [] => true
  | [_] => true
  | a :: b :: t => decide (a < b) && strictIncr (b :: t)

/-- The Welcome state with a selected key and one pending file. -/
def oneFileState : AppState := { welcomeKeyState with files := ["a.pdf"] }

/-- A fully successful provisioning oracle returning one question. -/
def okOracle : SetupOracle :=
  { createStore := Except.ok "ragStores/demo", uploadFile := fun _ => Except.ok (),
    genQuestions := Except.ok ["q1"] }

/-- C4 counterexample: with `N = 1` pending file and all calls succeeding,
the observed `progress.current` sequence is `0, 1, 1, 2, 3` — it is not
strictly increasing (the value 1 repeats), does not start at 1, and ends at
`N + 2 = 3`, not `N + 1` — refuting the claimed strictly increasing
sequence from 1 to N+1, although exactly one upload call is made in order
and every total equals `N + 2`. -/
theorem provisioning_progress_counterexample :
    progressCurrentsOf (handleAdminSetupComplete oneFileState okOracle).2 = [0, 1, 1, 2, 3] ∧
      strictIncr (progressCurrentsOf (handleAdminSetupComplete oneFileState okOracle).2) =
        false ∧
      progressCurrentsOf (handleAdminSetupComplete oneFileState okOracle).2 ≠
        natsFrom 1 (oneFileState.files.length + 1) ∧
      uploadCallsOf (handleAdminSetupComplete oneFileState okOracle).2 = [(0, "a.pdf")] := by
  refine ⟨by decide, by decide, by decide, by decide⟩

/-- Witness for the amended C4 on the one-file run. -/
theorem provisioning_progress_spec_witness :
    uploadCallsOf (handleAdminSetupComplete oneFileState okOracle).2 = oneFileState.files.enum ∧
      progressCurrentsOf (handleAdminSetupComplete oneFileState okOracle).2 =
        [0, 1] ++ natsFrom 1 oneFileState.files.length ++
          [oneFileState.files.length + 1, oneFileState.files.length + 2] := by
  obtain ⟨h1, h2, h3⟩ := provisioning_progress_spec oneFileState okOracle "ragStores/demo"
    ["q1"] (by decide) rfl (fun i => rfl) rfl
  exact ⟨h1, h2⟩

theorem setup_cases (s : AppState) (o : SetupOracle) :
    (handleAdminSetupComplete s o).1 =
        { s with apiKeyError := some "請先選擇您的 Gemini API Key。" } ∨
      (∃ e, (handleAdminSetupComplete s o).1 =
        applyCatch { s with apiKeyError := none, status := AppStatus.Uploading } e) ∨
      (∃ storeName qs docName,
        (handleAdminSetupComplete s o).1 =
          { s with apiKeyError := none, exampleQuestions := qs, documentName := docName,
                   activeRagStoreName := some storeName, chatHistory := [],
                   status := AppStatus.Binding, files := [], uploadProgress := none }) := by
  by_cases hk : s.isApiKeySelected = false
  · left
    simp [handleAdminSetupComplete, hk]
  · have hk2 : s.isApiKeySelected = true := by
      cases h2 : s.isApiKeySelected
      · exact absurd h2 hk
      · rfl
    cases hc : o.createStore with
    | error e =>
      right; left
      exact ⟨e, by simp [handleAdminSetupComplete, hk2, hc]⟩
    | ok nm =>
      cases hr : (runUploads o.uploadFile s.files.length (s.files.length + 2) s.files 0).2 with
      | some e =>
        right; left
        exact ⟨e, by simp [handleAdminSetupComplete, hk2, hc, hr]⟩
      | none =>
        cases hq : o.genQuestions with
        | error e =>
          right; left
          exact ⟨e, by simp [handleAdminSetupComplete, hk2, hc, hr, hq]⟩
        | ok qs =>
          right; right
          refine ⟨nm, qs, if 0 < s.files.length then "診所知識庫" else "診所 AI 助理", ?_⟩
          simp [handleAdminSetupComplete, hk2, hc, hr, hq]

theorem applyCatch_status (s : AppState) (e : String) :
    ((applyCatch s e).status = AppStatus.Welcome ∨ (applyCatch s e).status = AppStatus.Error) ∧
      (applyCatch s e).activeRagStoreName = s.activeRagStoreName := by
  unfold applyCatch
  by_cases h : isInvalidCredMsg e = true
  · rw [if_pos h]
    exact ⟨Or.inl rfl, rfl⟩
  · rw [if_neg h]
    exact ⟨Or.inr rfl, rfl⟩

/-- C2 (amended): in every reachable state, a Binding or Chatting status
implies a bound store.  The converse of the claimed invariant fails:
`handleError` does not clear `activeRagStoreName`, so the Error state
reached from a failing query while Chatting keeps the store bound (see the
counterexample). -/
theorem activeStore_invariant_forward : ∀ s : AppState, Reachable s →
    s.status = AppStatus.Binding ∨ s.status = AppStatus.Chatting →
    s.activeRagStoreName ≠ none := by
  intro s hr
  induction hr with
  | init =>
    intro hs
    simp [initialState] at hs
  | step s s2 hr hstep ih =>
    intro hs
    cases hstep with
    | initDone h =>
      rcases hs with h2 | h2 <;> simp at h2
    | checkKey b =>
      have heq : ({ s with isApiKeySelected := b } : AppState).activeRagStoreName =
          s.activeRagStoreName := rfl
      rw [heq]
      apply ih
      rcases hs with h2 | h2
      · exact Or.inl h2
      · exact Or.inr h2
    | setFiles fs h =>
      have heq : ({ s with files := fs } : AppState).activeRagStoreName =
          s.activeRagStoreName := rfl
      rw [heq]
      apply ih
      rcases hs with h2 | h2
      · exact Or.inl h2
      · exact Or.inr h2
    | setup o h =>
      rcases setup_cases s o with hcase | ⟨e, hcase⟩ | ⟨nm, qs, dn, hcase⟩
      · rw [hcase] at hs ⊢
        apply ih
        rcases hs with h2 | h2
        · exact Or.inl h2
        · exact Or.inr h2
      · rw [hcase] at hs
        obtain ⟨hstat, _⟩ :=
          applyCatch_status { s with apiKeyError := none, status := AppStatus.Uploading } e
        rcases hstat with hw | he
        · rcases hs with h2 | h2 <;> (rw [hw] at h2; simp at h2)
        · rcases hs with h2 | h2 <;> (rw [he] at h2; simp at h2)
      · rw [hcase]
        simp
    | login name h =>
      have heq : (handlePatientLogin s name).activeRagStoreName = s.activeRagStoreName := rfl
      rw [heq]
      exact ih (Or.inl h)
    | endChat d h =>
      rcases hs with h2 | h2 <;> simp [handleEndChat] at h2
    | send m outcome h =>
      by_cases hstore : s.activeRagStoreName = none
      · have heq : handleSendMessage s m outcome = s := by
          simp [handleSendMessage, hstore]
        rw [heq] at hs ⊢
        exact ih hs
      · cases outcome with
        | ok r =>
          have heq : (handleSendMessage s m (Except.ok r)).activeRagStoreName =
              s.activeRagStoreName := by
            simp [handleSendMessage, hstore]
          rw [heq]
          exact hstore
        | error e =>
          have hst : (handleSendMessage s m (Except.error e)).status = AppStatus.Error := by
            simp [handleSendMessage, hstore]
          rcases hs with h2 | h2 <;> (rw [hst] at h2; simp at h2)
    | ack h =>
      rcases hs with h2 | h2 <;> simp [clearError] at h2

theorem reach_welcomeKeyState : Reachable welcomeKeyState :=
  Reachable.step _ _
    (Reachable.step _ _ Reachable.init (Step.initDone initialState rfl))
    (Step.checkKey _ true)

theorem reach_bindState : Reachable bindState :=
  Reachable.step _ _ reach_welcomeKeyState (Step.setup _ demoOracle rfl)

theorem reach_chatState : Reachable chatState :=
  Reachable.step _ _ reach_bindState (Step.login _ "王小明" (by decide))

theorem reach_queryFailState : Reachable queryFailState :=
  Reachable.step _ _ reach_chatState (Step.send _ "您好" (Except.error "boom") (by decide))

/-- C2 counterexample: the Error state reached by a failing query while
Chatting is reachable, its status lies outside Binding and Chatting, and yet
its store binding is still non-null, refuting the claimed two-way
invariant. -/
theorem activeStore_invariant_counterexample :
    Reachable queryFailState ∧
      queryFailState.status = AppStatus.Error ∧
      queryFailState.activeRagStoreName = some "ragStores/demo" ∧
      ¬ (queryFailState.activeRagStoreName ≠ none ↔
          (queryFailState.status = AppStatus.Binding ∨
            queryFailState.status = AppStatus.Chatting)) :=
  ⟨reach_queryFailState, by decide, by decide, by decide⟩

/-- Witness for the amended C2 at the reachable Binding state produced by a
successful provisioning run. -/
theorem activeStore_invariant_forward_witness :
    bindState.activeRagStoreName ≠ none :=
  activeStore_invariant_forward bindState reach_bindState (Or.inl (by decide))

/-! Example-question generation (`generateExampleQuestions` in
`geminiService.ts`). -/

/-- A JSON value as produced by the host `JSON.parse` (numbers as integers;
only the array/string structure matters to the code under study). -/
inductive Json where
  | null
  | bool (b : Bool)
  | num (n : Int)
  | str (s : String)
  | arr (items : List Json)
  | obj (fields : List (String × Json))

/-- The string content of a JSON value, when it is a string (the
`typeof q === 'string'` filter). -/
def jsonStr : Json → Option String
  | Json.str s => some s
  | _ => none

/-- The four-question localized default list returned on a malformed
payload. -/
def defaultQuestions4 : List String :=
  ["診所的營業時間是幾點？", "請問該如何預約？", "第一次看診需要準備什麼？", "診所有健保嗎？"]

/-- The two-question localized default list returned by the outer catch. -/
def defaultQuestions2 : List String :=
  ["診所的營業時間是幾點？", "請問該如何預約？"]

/-- Skip to just after the first occurrence of `pat`, when there is one. -/
def dropToAfter (pat : List Char) : List Char → Option (List Char)
  | [] => if strHead pat [] then some [] else none
  | c :: cs =>
    if strHead pat (c :: cs) then some ((c :: cs).drop pat.length)
    else dropToAfter pat cs

/-- The characters before the first occurrence of `pat`, when there is
one. -/
def captureTo (pat : List Char) : List Char → Option (List Char)
  | [] => if strHead pat [] then some [] else none
  | c :: cs =>
    if strHead pat (c :: cs) then some []
    else
      match captureTo pat cs with
      | some b => some (c :: b)
      | none => none

/-- The opening of a fenced json block (three backticks, `json`, a
newline). -/
def fenceOpen : List Char := [btChar, btChar, btChar, 'j', 's', 'o', 'n', '\n']

/-- The closing of a fenced json block (a newline, three backticks). -/
def fenceClose : List Char := ['\n', btChar, btChar, btChar]

/-- The lazy capture of the fenced-json regex: the text between the first
fence opening and the first fence closing after it. -/
def extractFenced (l : List Char) : Option (List Char) :=
  match dropToAfter fenceOpen l with
  | none => none
  | some rest =>
    match captureTo fenceClose rest with
    | none => none
    | some body => some body

/-- The array handling of a parsed payload: an array keeps its string
elements truncated to four; any other shape falls back to the four-question
default. -/
def questionsOfParsed : Json → List String
  | Json.arr items => (items.filterMap jsonStr).take 4
  | _ => defaultQuestions4

/-- `generateExampleQuestions`: `aiSet` models the `initialize()` guard
(whose failure throws before the try block); `remote` is the outcome of the
remote call, `parse` the host JSON parser.  The response text is trimmed and
parsed; on parse failure the fenced-json block is tried (an absent or empty
capture yields the four-question default); any throw inside the try — a
failing remote call or a failing second parse — lands in the outer catch,
which returns the two-question default. -/
def generateExampleQuestions (aiSet : Bool) (remote : Except String String)
    (parse : String → Option Json) : Except String (List String) :=
  if aiSet = false then Except.error "Gemini AI not initialized"
  else
    Except.ok (match remote with
      | Except.error _ => defaultQuestions2
      | Except.ok t =>
        match parse t.trim with
        | some d => questionsOfParsed d
        | none =>
          match extractFenced t.trim.data with
          | some body =>
            if body = [] then defaultQuestions4
            else
              match parse (String.mk body) with
              | some d => questionsOfParsed d
              | none => defaultQuestions2
          | none => defaultQuestions4)

theorem questionsOfParsed_length (d : Json) : (questionsOfParsed d).length ≤ 4 := by
  cases d <;> simp [questionsOfParsed, defaultQuestions4]

/-- C9: with the service initialized, `generateExampleQuestions` never
throws and always returns at most four strings; a response parsing to a
JSON array yields its string elements truncated to four; a throwing remote
call yields the fixed two-question default; a response that parses nowhere
and holds no fenced block yields the fixed four-question default — no
failure is surfaced. -/
theorem generateExampleQuestions_spec (remote : Except String String)
    (parse : String → Option Json) :
    (∃ qs, generateExampleQuestions true remote parse = Except.ok qs ∧ qs.length ≤ 4) ∧
    (∀ t items, remote = Except.ok t → parse t.trim = some (Json.arr items) →
      generateExampleQuestions true remote parse =
        Except.ok ((items.filterMap jsonStr).take 4)) ∧
    (∀ e, remote = Except.error e →
      generateExampleQuestions true remote parse = Except.ok defaultQuestions2) ∧
    (∀ t, remote = Except.ok t → parse t.trim = none → extractFenced t.trim.data = none →
      generateExampleQuestions true remote parse = Except.ok defaultQuestions4) := by
  refine ⟨?_, ?_, ?_, ?_⟩
  · unfold generateExampleQuestions
    cases remote with
    | error e => exact ⟨defaultQuestions2, rfl, by decide⟩
    | ok t =>
      simp only [Bool.true_eq_false, if_false]
      cases hp : parse t.trim with
      | some d => exact ⟨questionsOfParsed d, rfl, questionsOfParsed_length d⟩
      | none =>
        cases hf : extractFenced t.trim.data with
        | none => exact ⟨defaultQuestions4, rfl, by decide⟩
        | some body =>
          by_cases hb : body = []
          · refine ⟨defaultQuestions4, ?_, by decide⟩
            simp [hb]
          · cases hp2 : parse (String.mk body) with
            | some d =>
              refine ⟨questionsOfParsed d, ?_, questionsOfParsed_length d⟩
              simp [hb, hp2]
            | none =>
              refine ⟨defaultQuestions2, ?_, by decide⟩
              simp [hb, hp2]
  · intro t items hr hp
    subst hr
    simp [generateExampleQuestions, hp, questionsOfParsed]
  · intro e hr
    subst hr
    rfl
  · intro t hr hp hf
    subst hr
    simp [generateExampleQuestions, hp, hf]

/-- Witness for C9 with a throwing remote call and a parser that always
fails. -/
theorem generateExampleQuestions_spec_witness :
    generateExampleQuestions true (Except.error "boom") (fun _ => none) =
        Except.ok defaultQuestions2 ∧
      defaultQuestions2.length ≤ 4 :=
  ⟨(generateExampleQuestions_spec (Except.error "boom") (fun _ => none)).2.2.1 "boom" rfl,
   by decide⟩
